import Mathlib

/-!
Verification of the resilient file-replacement engine of `source/installer.py`
(NVDA installer): `tryRemoveFile`, `tryCopyFile`, `_deleteFileGroupOrFail` /
`_revertGroupDelete`, `copyProgramFiles`, `removeOldLibFiles`, and the
`nvda.exe` selection step of `install`.

The filesystem is shallowly embedded as a partial map from locations to file
contents (an opaque `Nat`).  A location is either a path in the install
directory (`Loc.orig`), the uniquely-named temporary placeholder that
`_createEmptyTempFileForDeletingFile` creates next to a file (`Loc.tmp`), or
the backup copy of a file inside the private scratch directory created by
`tempfile.mkdtemp` (`Loc.scratch`).  Keying the placeholder and the scratch
copy by constructor models the freshness/uniqueness that the Python library
calls guarantee.

Failures of the OS-level primitives (`os.remove`, `os.replace`,
`CopyFileW`, `moveFileEx`) are environment-induced (a held lock, an
antivirus scan); they are modelled by boolean oracles in `Env`.  Operations
on the private scratch directory are modelled as succeeding, since no other
process contends for a freshly created private temp directory.
-/

namespace Installer

/-- A storage location: a path under the install root, the temporary
placeholder created next to a file before deleting it, or the backup copy of
a file in the private scratch directory of a group operation. -/
inductive Loc where
  | orig : String → Loc
  | tmp : String → Loc
  | scratch : String → Loc
deriving DecidableEq

/-- The filesystem: file contents (opaque `Nat`) per location; `none` means
the location holds no file. -/
def FS : Type := Loc → Option Nat

/-- Environment oracles deciding which OS primitives fail, modelling locks
held by other processes and transient I/O errors.
`removeFails p i` : does the `i`-th (0-based) `os.remove`/`shutil.rmtree`
attempt against file `p` fail?
`renameFails p` : does `os.replace` moving `p` out of the way fail?
`restoreFails p` : does the best-effort `os.replace` moving a saved copy of
`p` back to its original location fail?
`moveFileExFails p` : does `moveFileEx(..., MOVEFILE_DELAY_UNTIL_REBOOT)` for
`p` fail?
`copyFails i` : does the `i`-th (0-based) `CopyFileW` attempt of one
`tryCopyFile` call fail? -/
structure Env where
  removeFails : String → Nat → Bool
  renameFails : String → Bool
  restoreFails : String → Bool
  moveFileExFails : String → Bool
  copyFails : Nat → Bool

/-- Write `v` at location `l` (the effect of creating, overwriting or, with
`none`, deleting a file). -/
def setLoc (fs : FS) (l : Loc) (v : Option Nat) : FS :=
  fun l2 => if l2 = l then v else fs l2

/-- `shutil.rmtree(tempDir)`: the whole scratch directory is removed. -/
def clearScratch (fs : FS) : FS :=
  fun l => match l with
    | .scratch _ => none
    | l2 => fs l2

/-- The bounded deletion retry loop shared by `tryRemoveFile`
(`for count in range(numRetries): ...`) and `_deleteFileGroupOrFail`
(`for count in range(1, numTries + 1): ...`): attempts are made one after
the other until one succeeds or the fuel runs out.  `made` is the number of
attempts already made (used as the 0-based index of the next attempt).
Returns the total number of attempts made and whether one succeeded. -/
def attemptDeleteLoop (env : Env) (p : String) : Nat → Nat → Nat × Bool
  | 0, made => (made, false)
  | fuel + 1, made =>
    if env.removeFails p made then attemptDeleteLoop env p fuel (made + 1)
    else (made + 1, true)

/-- Result of one `tryRemoveFile` call: normal return after a successful
synchronous delete, normal return after registering the placeholder for
delete-on-reboot, or a raised `RetriableFailure` (the only exception class
the code defines). -/
inductive RemoveResult where
  | removed
  | deferred
  | retriableFailure
deriving DecidableEq

/-- Observable outcome of `tryRemoveFile`: the filesystem after the call,
how the call returned, how many delete attempts were made against the
placeholder, and how many times `moveFileEx(..., MOVEFILE_DELAY_UNTIL_REBOOT)`
was invoked. -/
structure RemoveOutcome where
  fs : FS
  result : RemoveResult
  deleteAttempts : Nat
  moveFileExCalls : Nat

/-- Model of `tryRemoveFile(path, numRetries, retryInterval, rebootOK)`
(installer.py lines 651-689): create an empty placeholder next to `path`,
`os.replace` `path` onto it (raising `RetriableFailure` when that fails,
including when `path` does not exist), then try to delete the placeholder up
to `numRetries` times; if every attempt fails and `rebootOK` is set, register
the placeholder for deletion at the next reboot and return; otherwise rename
the placeholder back to `path` (best-effort) and raise `RetriableFailure`.
The sleep between attempts has no observable effect and is not modelled. -/
def tryRemoveFile (env : Env) (fs : FS) (path : String) (numRetries : Nat)
    (rebootOK : Bool) : RemoveOutcome :=
  match fs (.orig path) with
  | none => ⟨setLoc fs (.tmp path) (some 0), .retriableFailure, 0, 0⟩
  | some c =>
    if env.renameFails path then
      ⟨setLoc fs (.tmp path) (some 0), .retriableFailure, 0, 0⟩
    else
      let fs1 : FS := setLoc (setLoc fs (.orig path) none) (.tmp path) (some c)
      match attemptDeleteLoop env path numRetries 0 with
      | (n, true) => ⟨setLoc fs1 (.tmp path) none, .removed, n, 0⟩
      | (n, false) =>
        if rebootOK then
          if env.moveFileExFails path then
            if env.restoreFails path then ⟨fs1, .retriableFailure, n, 1⟩
            else ⟨setLoc (setLoc fs1 (.tmp path) none) (.orig path) (some c), .retriableFailure, n, 1⟩
          else ⟨fs1, .deferred, n, 1⟩
        else
          if env.restoreFails path then ⟨fs1, .retriableFailure, n, 0⟩
          else ⟨setLoc (setLoc fs1 (.tmp path) none) (.orig path) (some c), .retriableFailure, n, 0⟩

/-- Result of one `tryCopyFile` call: normal return, a raised `OSError`, or
a raised `RetriableFailure`. -/
inductive CopyResult where
  | success
  | osError
  | retriableFailure
deriving DecidableEq

/-- Observable outcome of `tryCopyFile`: the filesystem after the call, how
the call returned, the number of `CopyFileW` attempts, the number of direct
delete (`os.remove`-style) attempts made against the existing destination,
and the number of `moveFileEx(..., MOVEFILE_DELAY_UNTIL_REBOOT)` calls. -/
structure CopyOutcome where
  fs : FS
  result : CopyResult
  copyAttempts : Nat
  deleteAttempts : Nat
  moveFileExCalls : Nat

/-- Model of `tryCopyFile(sourceFilePath, destFilePath)` (installer.py lines
692-713): call `CopyFileW`; on failure, if the destination does not exist
raise `OSError`; otherwise `os.replace` the destination onto a fresh
placeholder (raising `RetriableFailure` when that rename fails), register
the placeholder for deletion at the next reboot with `moveFileEx` (a failure
of which propagates as an unhandled `WindowsError`), and retry the copy
exactly once, raising `OSError` if the retry also fails.  A `CopyFileW`
attempt succeeds when the source exists and the attempt's oracle does not
fail; a failed attempt leaves the destination unchanged. -/
def tryCopyFile (env : Env) (fs : FS) (src dest : String) : CopyOutcome :=
  if (fs (.orig src)).isSome && !env.copyFails 0 then
    ⟨setLoc fs (.orig dest) (fs (.orig src)), .success, 1, 0, 0⟩
  else if fs (.orig dest) = none then
    ⟨fs, .osError, 1, 0, 0⟩
  else
    let fs0 : FS := setLoc fs (.tmp dest) (some 0)
    if env.renameFails dest then
      ⟨fs0, .retriableFailure, 1, 0, 0⟩
    else
      let fs1 : FS := setLoc (setLoc fs0 (.orig dest) none) (.tmp dest) (fs (.orig dest))
      if env.moveFileExFails dest then
        ⟨fs1, .osError, 1, 0, 1⟩
      else if (fs1 (.orig src)).isSome && !env.copyFails 1 then
        ⟨setLoc fs1 (.orig dest) (fs1 (.orig src)), .success, 2, 0, 1⟩
      else
        ⟨fs1, .osError, 2, 0, 1⟩

/-- Modelled from the spec: the RobustCopier of spec section 4.2, whose
fallback removes the existing destination via the locked-file remover with
the default retry policy and deferral allowed
(`LockedFileRemover.remove(dest, defaultPolicy, allowDeferred=true)`, that
is `tryRemoveFile` with its default `numRetries = 6` and `rebootOK = true`)
before retrying the copy once.  This definition exists to be compared with
`tryCopyFile`, the model of the code, which performs no delete attempts in
its fallback. -/
def tryCopyFileSpec (env : Env) (fs : FS) (src dest : String) : CopyOutcome :=
  if (fs (.orig src)).isSome && !env.copyFails 0 then
    ⟨setLoc fs (.orig dest) (fs (.orig src)), .success, 1, 0, 0⟩
  else if fs (.orig dest) = none then
    ⟨fs, .osError, 1, 0, 0⟩
  else
    let rm := tryRemoveFile env fs dest 6 true
    if (rm.fs (.orig src)).isSome && !env.copyFails 1 then
      ⟨setLoc rm.fs (.orig dest) (rm.fs (.orig src)), .success, 2, rm.deleteAttempts,
        rm.moveFileExCalls⟩
    else
      ⟨rm.fs, .osError, 2, rm.deleteAttempts, rm.moveFileExCalls⟩

/-- Result of one `_deleteFileGroupOrFail` call: normal return, or a raised
`RetriableFailure` (the only exception class the code defines; it is raised
both for an ordinary exhausted-retries failure and after a best-effort
rollback whose individual restores may themselves have failed). -/
inductive GroupResult where
  | success
  | retriableFailure
deriving DecidableEq

/-- Observable outcome of `_deleteFileGroupOrFail`: the filesystem after the
call, how the call returned, and the number of delete attempts made against
each relative path. -/
structure GroupOutcome where
  fs : FS
  result : GroupResult
  attempts : String → Nat

/-- Model of `_revertGroupDelete(tempDir, installDir)` (installer.py lines
725-733): move every backup copy left in the scratch directory back to its
original location with `os.replace`, logging and skipping any rename that
fails.  `staged` enumerates the relative paths whose backup copies are in
the scratch directory. -/
def revertGroupDelete (env : Env) : List String → FS → FS
  | [], fs => fs
  | q :: rest, fs =>
    revertGroupDelete env rest
      (if env.restoreFails q then fs
       else setLoc (setLoc fs (.orig q) (fs (.scratch q))) (.scratch q) none)

/-- The per-path loop of `_deleteFileGroupOrFail` (installer.py lines
755-781): skip a relative path that does not exist under `installDir`;
otherwise copy it into the scratch directory (`shutil.copyfile`), then try
`os.remove` on the original up to `numTries` times.  On success move to the
next path; once one path exhausts its attempts, delete that path's backup
copy, run `_revertGroupDelete`, and raise `RetriableFailure`.  On normal
exit and on the exception path alike, `shutil.rmtree(tempDir)` removes the
scratch directory (the `finally` block). -/
def deleteFileGroupGo (env : Env) (numTries : Nat) :
    List String → FS → List String → (String → Nat) → GroupOutcome
  | [], fs, _staged, att => ⟨clearScratch fs, .success, att⟩
  | p :: rest, fs, staged, att =>
    match fs (.orig p) with
    | none => deleteFileGroupGo env numTries rest fs staged att
    | some c =>
      let fs1 : FS := setLoc fs (.scratch p) (some c)
      match attemptDeleteLoop env p numTries 0 with
      | (n, true) =>
        deleteFileGroupGo env numTries rest (setLoc fs1 (.orig p) none) (staged ++ [p])
          (fun q => if q = p then n else att q)
      | (n, false) =>
        ⟨clearScratch
            (revertGroupDelete env staged (setLoc fs1 (.scratch p) none)),
          .retriableFailure, fun q => if q = p then n else att q⟩

/-- Model of `_deleteFileGroupOrFail(installDir, relativeFilepaths, numTries,
retryWaitInterval)` (installer.py lines 736-787).  `tempfile.mkdtemp` yields
a fresh empty private scratch directory, so the run starts with the scratch
locations empty. -/
def deleteFileGroupOrFail (env : Env) (fs : FS) (paths : List String) (numTries : Nat) :
    GroupOutcome :=
  deleteFileGroupGo env numTries paths (clearScratch fs) [] (fun _ => 0)

/-- The named subdirectories of one directory, as seen by `os.walk`:
`cons d files sub rest` is a subdirectory named `d` that directly contains
the files `files` and the subdirectories `sub`, followed by the sibling
subdirectories `rest`. -/
inductive Forest where
  | nil : Forest
  | cons : String → List String → Forest → Forest → Forest
deriving DecidableEq

/-- A directory tree as seen by `os.walk`: the files directly in the walked
root and the root's subdirectories. -/
structure DirTree where
  files : List String
  subs : Forest

/-- In-place pruning of a subdirectory list (`subDirs[:] = [x for x in
subDirs if ...]`): keep the subdirectories whose name satisfies `keep`. -/
def Forest.keepDirs (keep : String → Bool) : Forest → Forest
  | .nil => .nil
  | .cons d files sub rest =>
    if keep d then .cons d files sub (rest.keepDirs keep) else rest.keepDirs keep

/-- The names of the top-level subdirectories of a forest. -/
def Forest.names : Forest → List String
  | .nil => []
  | .cons d _ _ rest => d :: rest.names

/-- The unpruned part of the `os.walk` in `copyProgramFiles` (installer.py
lines 151-166) below the top level, where `detectUserConfig` is already
`False`: the relative paths (component lists) of every file in the forest,
each of which gets passed to `tryCopyFile`. -/
def copyWalk : Forest → List (List String)
  | .nil => []
  | .cons d files sub rest =>
    (files.map (fun f => [f]) ++ copyWalk sub).map (fun p => d :: p) ++ copyWalk rest

/-- Python's `str.lower()` on a file or directory name, restricted to the
ASCII names the installer compares against, computed on the character list
of the string. -/
def lowerName (s : String) : List Char :=
  s.data.map Char.toLower

/-- Is this directory name pruned from the top-level walk of
`copyProgramFiles` (`basename(x).lower() not in ("userconfig",
"systemconfig")`)? -/
def isProtectedName (s : String) : Bool :=
  lowerName s == "userconfig".data || lowerName s == "systemconfig".data

/-- Model of `copyProgramFiles(destPath)` (installer.py lines 148-166) as
the list of source-relative paths it copies: at the top level the
`userconfig`/`systemconfig` subdirectories are pruned (only there, since
`detectUserConfig` is cleared after the first walk iteration) and the
top-level file whose lowercased name is `nvda.exe` is skipped; everything
else is walked and copied. -/
def copyProgramFiles (t : DirTree) : List (List String) :=
  (t.files.filter (fun f => !(lowerName f == "nvda.exe".data))).map (fun f => [f]) ++
    copyWalk (t.subs.keepDirs (fun d => !isProtectedName d))

/-- The walk of the subdirectories of one `lib`/`lib64`/`libArm64` top
directory in `removeOldLibFiles` (installer.py lines 189-217): the paths
(relative to the top directory, as component lists) of every file the
pruner tries to remove.  `pp` is the path of the directory whose
subdirectories are walked; the walk is bottom-up (`topdown=False`) and the
directory whose path equals `[version]` (the current install's lib dir) is
skipped entirely (`if parent == currentLibPath: continue`). -/
def libWalk (version : String) : List String → Forest → List (List String)
  | _, .nil => []
  | pp, .cons d files sub rest =>
    libWalk version (pp ++ [d]) sub ++
      (if pp ++ [d] = [version] then [] else files.map (fun f => (pp ++ [d]) ++ [f])) ++
      libWalk version pp rest

/-- Model of `removeOldLibFiles(destPath, rebootOK)` restricted to one top
directory: the top-directory-relative paths of the files it tries to remove
(via `tryRemoveFile`), given the currently installed version identifier.
The files directly in the top directory itself are always processed, since
the top directory's path `[]` never equals the current lib path
`[version]`. -/
def removeOldLibFiles (version : String) (t : DirTree) : List (List String) :=
  libWalk version [] t.subs ++ t.files.map (fun f => [f])

/-- How the `nvda.exe` production step of `install` ended: a `tryCopyFile`
of the named source executable onto `nvda.exe`, or the raised
`RuntimeError`. -/
inductive NvdaExeStep where
  | copied : String → CopyOutcome → NvdaExeStep
  | runtimeError : NvdaExeStep

/-- Model of the step of `install` that produces the installed `nvda.exe`
(installer.py lines 818-824): the first of `nvda_UIAccess.exe`,
`nvda_noUIAccess.exe` that exists in the install directory is copied over
`nvda.exe` with `tryCopyFile`; if neither exists a `RuntimeError` is
raised. -/
def installNvdaExeStep (env : Env) (fs : FS) : NvdaExeStep :=
  if (fs (.orig "nvda_UIAccess.exe")).isSome then
    .copied "nvda_UIAccess.exe" (tryCopyFile env fs "nvda_UIAccess.exe" "nvda.exe")
  else if (fs (.orig "nvda_noUIAccess.exe")).isSome then
    .copied "nvda_noUIAccess.exe" (tryCopyFile env fs "nvda_noUIAccess.exe" "nvda.exe")
  else
    .runtimeError

/-! ### Concrete fixtures used by the witnesses and counterexamples -/

/-- An environment where every OS primitive succeeds. -/
def envOK : Env :=
  ⟨fun _ _ => false, fun _ => false, fun _ => false, fun _ => false, fun _ => false⟩

/-- An environment where the file `"b"` is permanently undeletable and
everything else succeeds. -/
def envBStuck : Env :=
  ⟨fun p _ => p = "b", fun _ => false, fun _ => false, fun _ => false, fun _ => false⟩

/-- Like `envBStuck`, but additionally the rollback restore of `"a"` fails. -/
def envBStuckBadRestore : Env :=
  ⟨fun p _ => p = "b", fun _ => false, fun p => p = "a", fun _ => false, fun _ => false⟩

/-- An environment where deleting `"a"` fails on attempts 0 and 1 and
succeeds from attempt 2 on, and everything else succeeds. -/
def envTwoFailures : Env :=
  ⟨fun p i => p = "a" && i < 2, fun _ => false, fun _ => false, fun _ => false, fun _ => false⟩

/-- An environment where every delete attempt fails and every other
primitive succeeds. -/
def envNoDelete : Env :=
  ⟨fun _ _ => true, fun _ => false, fun _ => false, fun _ => false, fun _ => false⟩

/-- An environment where every delete attempt fails and the first
`CopyFileW` attempt of a copy call fails, everything else succeeding. -/
def envFirstCopyFails : Env :=
  ⟨fun _ _ => true, fun _ => false, fun _ => false, fun _ => false, fun i => i = 0⟩

/-- An environment where every delete attempt and every `CopyFileW` attempt
fails, everything else succeeding. -/
def envAllCopiesFail : Env :=
  ⟨fun _ _ => true, fun _ => false, fun _ => false, fun _ => false, fun _ => true⟩

/-- An install directory holding files `"a"` (content 1) and `"b"`
(content 2). -/
def fsAB : FS :=
  fun l => if l = .orig "a" then some 1 else if l = .orig "b" then some 2 else none

/-- An install directory holding files `"s"` (content 5) and `"d"`
(content 9). -/
def fsSD : FS :=
  fun l => if l = .orig "s" then some 5 else if l = .orig "d" then some 9 else none

/-- An install directory holding only the file `"f"` (content 7). -/
def fsF : FS :=
  fun l => if l = .orig "f" then some 7 else none

/-- An empty install directory. -/
def fsEmpty : FS := fun _ => none

/-- An install directory holding only `"nvda_UIAccess.exe"` (content 3). -/
def fsUIA : FS :=
  fun l => if l = .orig "nvda_UIAccess.exe" then some 3 else none

/-- A source tree with a `userConfig` subtree nested one level down:
`sub/userConfig/secret.ini`. -/
def treeNestedUserConfig : DirTree :=
  ⟨[], .cons "sub" [] (.cons "userConfig" ["secret.ini"] .nil .nil) .nil⟩

/-- A lib top directory holding the current version's directory `1.0` with
a direct file `direct.dll` and a subdirectory `sub` containing `x.dll`. -/
def treeLib : DirTree :=
  ⟨[], .cons "1.0" ["direct.dll"] (.cons "sub" ["x.dll"] .nil .nil) .nil⟩

/-! ### Helper lemmas -/

@[simp]
theorem setLoc_same (fs : FS) (l : Loc) (v : Option Nat) : setLoc fs l v l = v := by
  simp [setLoc]

theorem setLoc_other (fs : FS) (l l2 : Loc) (v : Option Nat) (h : l2 ≠ l) :
    setLoc fs l v l2 = fs l2 := by
  simp [setLoc, h]

@[simp]
theorem clearScratch_scratch (fs : FS) (q : String) : clearScratch fs (.scratch q) = none := rfl

@[simp]
theorem clearScratch_orig (fs : FS) (p : String) : clearScratch fs (.orig p) = fs (.orig p) := rfl

@[simp]
theorem clearScratch_tmp (fs : FS) (p : String) : clearScratch fs (.tmp p) = fs (.tmp p) := rfl

theorem attemptDeleteLoop_allFail (env : Env) (p : String)
    (h : ∀ i, env.removeFails p i = true) :
    ∀ fuel made, attemptDeleteLoop env p fuel made = (made + fuel, false) := by
  intro fuel
  induction fuel with
  | zero => intro made; simp [attemptDeleteLoop]
  | succ n ih =>
    intro made
    simp only [attemptDeleteLoop, h made, if_pos]
    rw [ih (made + 1)]
    congr 1
    omega

theorem revertGroupDelete_apply (env : Env) (hres : ∀ q, env.restoreFails q = false) :
    ∀ (staged : List String) (fs : FS), staged.Nodup →
      ∀ r : String,
        revertGroupDelete env staged fs (.orig r) =
          if r ∈ staged then fs (.scratch r) else fs (.orig r) := by
  intro staged
  induction staged with
  | nil => intro fs _ r; simp [revertGroupDelete]
  | cons q rest ih =>
    intro fs hnd r
    rw [revertGroupDelete, hres q]
    simp only [Bool.false_eq_true, if_false]
    rw [ih _ hnd.of_cons r]
    rcases List.nodup_cons.1 hnd with ⟨hqrest, -⟩
    by_cases hrrest : r ∈ rest
    · have hrq : r ≠ q := fun h => hqrest (h ▸ hrrest)
      simp only [hrrest, if_true, List.mem_cons, Or.inr hrrest, if_true]
      rw [setLoc_other _ _ _ _ (by simp [hrq]), setLoc_other _ _ _ _ (by simp)]
      simp [hrrest]
    · by_cases hrq : r = q
      · subst hrq
        simp only [hrrest, if_false, List.mem_cons, true_or, if_true]
        rw [setLoc_other _ _ _ _ (by simp), setLoc_same]
      · simp only [hrrest, if_false, List.mem_cons, hrq, false_or, if_false]
        rw [setLoc_other _ _ _ _ (by simp), setLoc_other _ _ _ _ (by simp [hrq])]

theorem deleteFileGroupGo_spec (env : Env) (hres : ∀ q, env.restoreFails q = false)
    (numTries : Nat) (O : String → Option Nat) :
    ∀ (rest : List String) (fs : FS) (staged : List String) (att : String → Nat),
      staged.Nodup →
      (∀ r, fs (.orig r) = if r ∈ staged then none else O r) →
      (∀ q ∈ staged, fs (.scratch q) = O q) →
      (((deleteFileGroupGo env numTries rest fs staged att).result = .success ∧
          ∀ r, (deleteFileGroupGo env numTries rest fs staged att).fs (.orig r) =
            if r ∈ staged ++ rest then none else O r) ∨
        ((deleteFileGroupGo env numTries rest fs staged att).result = .retriableFailure ∧
          ∀ r, (deleteFileGroupGo env numTries rest fs staged att).fs (.orig r) = O r)) ∧
      ∀ q, (deleteFileGroupGo env numTries rest fs staged att).fs (.scratch q) = none := by
  intro rest
  induction rest with
  | nil =>
    intro fs staged att _hnd hor _hscr
    refine ⟨Or.inl ⟨rfl, fun r => ?_⟩, fun q => by simp [deleteFileGroupGo]⟩
    simp only [deleteFileGroupGo, clearScratch_orig, List.append_nil]
    exact hor r
  | cons p rest ih =>
    intro fs staged att hnd hor hscr
    rcases hc : fs (.orig p) with _ | c
    · -- the file does not exist: it is skipped
      have hpO : p ∈ staged ∨ O p = none := by
        rcases hor p with h
        rw [hc] at h
        by_cases hps : p ∈ staged
        · exact Or.inl hps
        · right; rw [if_neg hps] at h; exact h.symm
      have hmain := ih fs staged att hnd hor hscr
      rw [deleteFileGroupGo] at *
      rw [hc]
      refine ⟨?_, hmain.2⟩
      rcases hmain.1 with ⟨hr, hfs⟩ | ⟨hr, hfs⟩
      · left
        refine ⟨hr, fun r => ?_⟩
        rw [hfs r]
        by_cases hmem : r ∈ staged ++ rest
        · rw [if_pos hmem, if_pos]
          rcases List.mem_append.1 hmem with h | h
          · exact List.mem_append.2 (Or.inl h)
          · exact List.mem_append.2 (Or.inr (List.mem_cons_of_mem _ h))
        · by_cases hrp : r = p
          · have hOr : O r = none := by
              rcases hpO with hps | hO
              · exfalso
                apply hmem
                rw [hrp]
                exact List.mem_append.2 (Or.inl hps)
              · rw [hrp]; exact hO
            rw [if_neg hmem, hOr]
            by_cases h2 : r ∈ staged ++ p :: rest
            · rw [if_pos h2]
            · rw [if_neg h2]
          · rw [if_neg hmem, if_neg]
            intro h2
            rcases List.mem_append.1 h2 with h | h
            · exact hmem (List.mem_append.2 (Or.inl h))
            · rcases List.mem_cons.1 h with h3 | h3
              · exact hrp h3
              · exact hmem (List.mem_append.2 (Or.inr h3))
      · exact Or.inr ⟨hr, hfs⟩
    · -- the file exists with content c, so c = O p and p is not yet staged
      have hps : p ∉ staged := by
        intro hmem
        rcases hor p with h
        rw [hc, if_pos hmem] at h
        exact Option.noConfusion h
      have hOp : O p = some c := by
        rcases hor p with h
        rw [hc, if_neg hps] at h
        exact h.symm
      rcases hal : attemptDeleteLoop env p numTries 0 with ⟨n, ok⟩
      rcases ok with _ | _
      · -- deletion of p failed: rollback
        rw [deleteFileGroupGo, hc, hal]
        refine ⟨Or.inr ⟨rfl, fun r => ?_⟩, fun q => by simp⟩
        simp only [clearScratch_orig]
        rw [revertGroupDelete_apply env hres staged _ hnd r]
        by_cases hrs : r ∈ staged
        · have hrp : r ≠ p := fun h => hps (h ▸ hrs)
          rw [setLoc_other _ _ _ _ (by simp [hrp]), setLoc_other _ _ _ _ (by simp [hrp]),
            if_pos hrs]
          exact hscr r hrs
        · rw [if_neg hrs, setLoc_other _ _ _ _ (by simp), setLoc_other _ _ _ _ (by simp)]
          rcases hor r with h
          rw [if_neg hrs] at h
          exact h
      · -- deletion of p succeeded: stage it and continue
        rw [deleteFileGroupGo, hc, hal]
        have hnd2 : (staged ++ [p]).Nodup := by
          rw [List.nodup_append]
          exact ⟨hnd, List.nodup_singleton p, by simpa using hps⟩
        have hor2 : ∀ r,
            setLoc (setLoc fs (.scratch p) (some c)) (.orig p) none (.orig r) =
              if r ∈ staged ++ [p] then none else O r := by
          intro r
          by_cases hrp : r = p
          · subst hrp
            rw [setLoc_same, if_pos (by simp)]
          · rw [setLoc_other _ _ _ _ (by simp [hrp]), setLoc_other _ _ _ _ (by simp)]
            rcases hor r with h
            rw [h]
            by_cases hrs : r ∈ staged
            · rw [if_pos hrs, if_pos (by simp [hrs])]
            · rw [if_neg hrs, if_neg (by simp [hrs, hrp])]
        have hscr2 : ∀ q ∈ staged ++ [p],
            setLoc (setLoc fs (.scratch p) (some c)) (.orig p) none (.scratch q) = O q := by
          intro q hq
          rw [setLoc_other _ _ _ _ (by simp)]
          by_cases hqp : q = p
          · subst hqp
            rw [setLoc_same, hOp]
          · rw [setLoc_other _ _ _ _ (by simp [hqp])]
            rcases List.mem_append.1 hq with h | h
            · exact hscr q h
            · exact absurd (List.mem_singleton.1 h) hqp
        have hmain := ih _ (staged ++ [p]) (fun q => if q = p then n else att q) hnd2 hor2 hscr2
        refine ⟨?_, hmain.2⟩
        rcases hmain.1 with ⟨hr, hfs⟩ | ⟨hr, hfs⟩
        · left
          refine ⟨hr, fun r => ?_⟩
          rw [hfs r]
          by_cases hmem : r ∈ staged ++ [p] ++ rest
          · rw [if_pos hmem, if_pos (by
              rcases List.mem_append.1 hmem with h | h
              · rcases List.mem_append.1 h with h2 | h2
                · exact List.mem_append.2 (Or.inl h2)
                · exact List.mem_append.2 (Or.inr (by simp [List.mem_singleton.1 h2]))
              · exact List.mem_append.2 (Or.inr (List.mem_cons_of_mem _ h)))]
          · rw [if_neg hmem, if_neg (by
              intro h2
              rcases List.mem_append.1 h2 with h | h
              · exact hmem (List.mem_append.2 (Or.inl (List.mem_append.2 (Or.inl h))))
              · rcases List.mem_cons.1 h with h3 | h3
                · exact hmem (List.mem_append.2 (Or.inl (List.mem_append.2 (Or.inr (by simp [h3])))))
                · exact hmem (List.mem_append.2 (Or.inr h3)))]
        · exact Or.inr ⟨hr, hfs⟩

theorem deleteFileGroupGo_allAbsent (env : Env) (numTries : Nat) :
    ∀ (rest : List String) (fs : FS) (staged : List String) (att : String → Nat),
      (∀ p ∈ rest, fs (.orig p) = none) →
      deleteFileGroupGo env numTries rest fs staged att = ⟨clearScratch fs, .success, att⟩ := by
  intro rest
  induction rest with
  | nil => intro fs staged att _; rfl
  | cons p rest ih =>
    intro fs staged att h
    rw [deleteFileGroupGo, h p (List.mem_cons_self p rest)]
    exact ih fs staged att (fun q hq => h q (List.mem_cons_of_mem _ hq))

/-! ### Claim theorems -/

/-- C1: after a group-delete call over an install root and a set of relative
paths returns, with any pattern of deletion failures but with the rollback
restores succeeding (the claim's scenario makes only one file undeletable),
the install directory is in one of exactly two states: every file of the
group is gone and no exception was raised, or every file of the group holds
exactly its original content and the failure was reported by raising; in
either case the scratch directory no longer exists. -/
theorem groupDelete_allOrNothing (env : Env) (fs : FS) (paths : List String) (numTries : Nat)
    (hres : ∀ q, env.restoreFails q = false) :
    (((deleteFileGroupOrFail env fs paths numTries).result = .success ∧
        ∀ p ∈ paths, (deleteFileGroupOrFail env fs paths numTries).fs (.orig p) = none) ∨
      ((deleteFileGroupOrFail env fs paths numTries).result = .retriableFailure ∧
        ∀ p, (deleteFileGroupOrFail env fs paths numTries).fs (.orig p) = fs (.orig p))) ∧
    ∀ q, (deleteFileGroupOrFail env fs paths numTries).fs (.scratch q) = none := by
  have h := deleteFileGroupGo_spec env hres numTries (fun r => fs (.orig r)) paths
    (clearScratch fs) [] (fun _ => 0) List.nodup_nil
    (fun r => by simp) (fun q hq => absurd hq (List.not_mem_nil q))
  rw [deleteFileGroupOrFail]
  refine ⟨?_, h.2⟩
  rcases h.1 with ⟨hr, hfs⟩ | ⟨hr, hfs⟩
  · left
    refine ⟨hr, fun p hp => ?_⟩
    have h2 := hfs p
    rw [if_pos (by simpa using hp)] at h2
    exact h2
  · exact Or.inr ⟨hr, hfs⟩

theorem groupDelete_allOrNothing_witness :
    (deleteFileGroupOrFail envBStuck fsAB ["a", "b"] 2).fs (.scratch "a") = none :=
  (groupDelete_allOrNothing envBStuck fsAB ["a", "b"] 2 (fun _ => rfl)).2 "a"

/-- C8: calling the group-delete operation with relative paths none of which
exist under the install root returns success (raises nothing), leaves the
install directory unchanged at every location, and leaves no scratch
directory behind. -/
theorem groupDelete_skipNonexistent (env : Env) (fs : FS) (paths : List String) (numTries : Nat)
    (h : ∀ p ∈ paths, fs (.orig p) = none) :
    (deleteFileGroupOrFail env fs paths numTries).result = .success ∧
    (∀ p, (deleteFileGroupOrFail env fs paths numTries).fs (.orig p) = fs (.orig p)) ∧
    (∀ p, (deleteFileGroupOrFail env fs paths numTries).fs (.tmp p) = fs (.tmp p)) ∧
    ∀ q, (deleteFileGroupOrFail env fs paths numTries).fs (.scratch q) = none := by
  rw [deleteFileGroupOrFail,
    deleteFileGroupGo_allAbsent env numTries paths _ _ _ (fun p hp => by simpa using h p hp)]
  exact ⟨rfl, fun p => by simp, fun p => by simp, fun q => by simp⟩

theorem groupDelete_skipNonexistent_witness :
    (deleteFileGroupOrFail envOK fsEmpty ["a", "b"] 6).result = .success :=
  (groupDelete_skipNonexistent envOK fsEmpty ["a", "b"] 6 (fun _ _ => rfl)).1

/-- C3: with three attempts allowed and a file whose deletion fails on
exactly the first two attempts and succeeds on the third, both the
single-file remover and the group-delete call report success (raise
nothing) and make exactly 3 deletion attempts. -/
theorem retryBound_exactlyThree (env : Env) (fs : FS) (p : String) (c : Nat) (rebootOK : Bool)
    (hex : fs (.orig p) = some c) (hrn : env.renameFails p = false)
    (h0 : env.removeFails p 0 = true) (h1 : env.removeFails p 1 = true)
    (h2 : env.removeFails p 2 = false) :
    ((tryRemoveFile env fs p 3 rebootOK).result = .removed ∧
      (tryRemoveFile env fs p 3 rebootOK).deleteAttempts = 3) ∧
    (deleteFileGroupOrFail env fs [p] 3).result = .success ∧
    (deleteFileGroupOrFail env fs [p] 3).attempts p = 3 := by
  have hal : attemptDeleteLoop env p 3 0 = (3, true) := by
    simp [attemptDeleteLoop, h0, h1, h2]
  refine ⟨?_, ?_⟩
  · rw [tryRemoveFile, hex]
    simp [hrn, hal]
  · rw [deleteFileGroupOrFail]
    simp [deleteFileGroupGo, hex, hal]

theorem retryBound_exactlyThree_witness :
    envTwoFailures.removeFails "a" 0 = true ∧ envTwoFailures.removeFails "a" 1 = true ∧
    envTwoFailures.removeFails "a" 2 = false ∧
    (tryRemoveFile envTwoFailures fsAB "a" 3 false).deleteAttempts = 3 ∧
    (deleteFileGroupOrFail envTwoFailures fsAB ["a"] 3).attempts "a" = 3 :=
  ⟨by decide, by decide, by decide,
    (retryBound_exactlyThree envTwoFailures fsAB "a" 1 false rfl rfl (by decide) (by decide)
      (by decide)).1.2,
    (retryBound_exactlyThree envTwoFailures fsAB "a" 1 false rfl rfl (by decide) (by decide)
      (by decide)).2.2⟩

/-- C2 counterexample: with files `"a"` (content 1) and `"b"` (content 2),
`"b"` permanently undeletable and the rollback restore of `"a"` failing, the
group-delete call reports exactly the same result (`RetriableFailure`) as
the ordinary failure run in which the restore succeeds, even though the
install directory is left inconsistent (`"a"` is missing); the reported
result is not distinguishable from an ordinary failure. -/
theorem groupDelete_rollbackFailure_counterexample :
    (deleteFileGroupOrFail envBStuckBadRestore fsAB ["a", "b"] 2).result = .retriableFailure ∧
    (deleteFileGroupOrFail envBStuck fsAB ["a", "b"] 2).result = .retriableFailure ∧
    (deleteFileGroupOrFail envBStuckBadRestore fsAB ["a", "b"] 2).fs (.orig "a") = none ∧
    (deleteFileGroupOrFail envBStuck fsAB ["a", "b"] 2).fs (.orig "a") = some 1 := by
  decide

/-- C2 amended: when a restore-on-rollback step of the group operation
fails, the failure is only logged: the call raises the very same
`RetriableFailure` as an ordinary permanent deletion failure, leaving the
un-restored file missing from the install directory, so the reported result
does not distinguish an inconsistent rollback from an ordinary failure. -/
theorem groupDelete_rollbackFailureConflated (env : Env) (fs : FS) (p q : String)
    (cp cq : Nat) (numTries : Nat)
    (hne : p ≠ q) (hp : fs (.orig p) = some cp) (hq : fs (.orig q) = some cq)
    (hdel : env.removeFails p 0 = false)
    (hfail : ∀ i, env.removeFails q i = true)
    (hrest : env.restoreFails p = true)
    (hn : 0 < numTries) :
    (deleteFileGroupOrFail env fs [p, q] numTries).result = .retriableFailure ∧
    (deleteFileGroupOrFail env fs [p, q] numTries).fs (.orig p) = none ∧
    (deleteFileGroupOrFail env fs [p, q] numTries).fs (.orig q) = some cq := by
  obtain ⟨m, rfl⟩ : ∃ m, numTries = m + 1 := ⟨numTries - 1, by omega⟩
  have halp : attemptDeleteLoop env p (m + 1) 0 = (1, true) := by
    rw [attemptDeleteLoop, hdel]
    simp
  have halq : attemptDeleteLoop env q (m + 1) 0 = (m + 1, false) := by
    rw [attemptDeleteLoop_allFail env q hfail]
    simp
  have hq2 : setLoc (setLoc (clearScratch fs) (.scratch p) (some cp)) (.orig p) none
      (.orig q) = some cq := by
    rw [setLoc_other _ _ _ _ (by simp [Ne.symm hne]), setLoc_other _ _ _ _ (by simp)]
    simpa using hq
  rw [deleteFileGroupOrFail, deleteFileGroupGo]
  simp only [clearScratch_orig, hp, halp]
  rw [deleteFileGroupGo]
  simp only [hq2, halq]
  simp only [revertGroupDelete, hrest, if_pos]
  refine ⟨trivial, ?_, ?_⟩
  · rw [clearScratch_orig,
      setLoc_other _ _ _ _ (by simp), setLoc_other _ _ _ _ (by simp), setLoc_same]
  · rw [clearScratch_orig,
      setLoc_other _ _ _ _ (by simp), setLoc_other _ _ _ _ (by simp)]
    exact hq2

theorem groupDelete_rollbackFailureConflated_witness :
    envBStuckBadRestore.restoreFails "a" = true ∧
    (deleteFileGroupOrFail envBStuckBadRestore fsAB ["a", "b"] 2).fs (.orig "b") = some 2 :=
  ⟨by decide,
    (groupDelete_rollbackFailureConflated envBStuckBadRestore fsAB "a" "b" 1 2 2
      (by decide) rfl rfl (by decide) (fun _ => rfl) (by decide) (by decide)).2.2⟩

/-- C4: with deferral allowed (`rebootOK = true`), on a file whose deletion
fails on every attempt but whose initial rename succeeds, and whose
deferred-deletion registration succeeds, `tryRemoveFile` returns normally
(reporting success rather than raising), invokes
`moveFileEx(..., MOVEFILE_DELAY_UNTIL_REBOOT)` exactly once, and the file
is no longer present at its original path. -/
theorem tryRemoveFile_deferredFallback (env : Env) (fs : FS) (p : String) (numRetries : Nat)
    (c : Nat)
    (hex : fs (.orig p) = some c) (hrn : env.renameFails p = false)
    (hfail : ∀ i, env.removeFails p i = true)
    (hmfe : env.moveFileExFails p = false) :
    (tryRemoveFile env fs p numRetries true).result = .deferred ∧
    (tryRemoveFile env fs p numRetries true).moveFileExCalls = 1 ∧
    (tryRemoveFile env fs p numRetries true).fs (.orig p) = none := by
  have hal : attemptDeleteLoop env p numRetries 0 = (numRetries, false) := by
    rw [attemptDeleteLoop_allFail env p hfail]
    simp
  rw [tryRemoveFile, hex]
  simp [hrn, hal, hmfe, setLoc_other _ _ _ _ (by simp : (Loc.orig p) ≠ (Loc.tmp p))]

theorem tryRemoveFile_deferredFallback_witness :
    envNoDelete.renameFails "f" = false ∧ envNoDelete.moveFileExFails "f" = false ∧
    (tryRemoveFile envNoDelete fsF "f" 6 true).result = .deferred ∧
    (tryRemoveFile envNoDelete fsF "f" 6 true).moveFileExCalls = 1 :=
  ⟨rfl, rfl,
    (tryRemoveFile_deferredFallback envNoDelete fsF "f" 6 7 rfl rfl (fun _ => rfl) rfl).1,
    (tryRemoveFile_deferredFallback envNoDelete fsF "f" 6 7 rfl rfl (fun _ => rfl) rfl).2.1⟩

/-- C5 counterexample: on a file whose deletion fails on every attempt, with
deferral not permitted and the restore rename succeeding, `tryRemoveFile`
raises `RetriableFailure` — the very exception kind the claim says the
outcome must be distinct from (the code defines no other failure kind) —
while restoring the file to its original path. -/
theorem tryRemoveFile_permanentFailure_counterexample :
    (tryRemoveFile envNoDelete fsF "f" 6 false).result = .retriableFailure ∧
    (tryRemoveFile envNoDelete fsF "f" 6 false).fs (.orig "f") = some 7 := by
  decide

/-- C5 amended: when all deletion attempts are exhausted and deferral is not
permitted (or the deferred registration fails), the renamed placeholder is
renamed back to the original path (best-effort) and the call raises
`RetriableFailure` — the same exception class used for transient failures;
the code has no distinct permanent-failure outcome.  The file is back at its
original path with its original content exactly when the restore rename
succeeds; when the restore fails, the file stays orphaned under the
placeholder name. -/
theorem tryRemoveFile_exhaustedRaisesRetriable (env : Env) (fs : FS) (p : String)
    (numRetries : Nat) (rebootOK : Bool) (c : Nat)
    (hex : fs (.orig p) = some c) (hrn : env.renameFails p = false)
    (hfail : ∀ i, env.removeFails p i = true)
    (hdef : rebootOK = false ∨ env.moveFileExFails p = true) :
    (tryRemoveFile env fs p numRetries rebootOK).result = .retriableFailure ∧
    (env.restoreFails p = false →
      (tryRemoveFile env fs p numRetries rebootOK).fs (.orig p) = some c ∧
      (tryRemoveFile env fs p numRetries rebootOK).fs (.tmp p) = none) ∧
    (env.restoreFails p = true →
      (tryRemoveFile env fs p numRetries rebootOK).fs (.orig p) = none ∧
      (tryRemoveFile env fs p numRetries rebootOK).fs (.tmp p) = some c) := by
  have hal : attemptDeleteLoop env p numRetries 0 = (numRetries, false) := by
    rw [attemptDeleteLoop_allFail env p hfail]
    simp
  rw [tryRemoveFile, hex]
  rcases hdef with hdef | hdef
  · subst hdef
    simp only [hrn, Bool.false_eq_true, if_false, hal]
    rcases hres : env.restoreFails p with _ | _
    · simp [setLoc_other _ _ _ _ (by simp : (Loc.tmp p) ≠ (Loc.orig p))]
    · simp [setLoc_other _ _ _ _ (by simp : (Loc.orig p) ≠ (Loc.tmp p))]
  · rcases hro : rebootOK with _ | _
    · simp only [hrn, Bool.false_eq_true, if_false, hal]
      rcases hres : env.restoreFails p with _ | _
      · simp [setLoc_other _ _ _ _ (by simp : (Loc.tmp p) ≠ (Loc.orig p))]
      · simp [setLoc_other _ _ _ _ (by simp : (Loc.orig p) ≠ (Loc.tmp p))]
    · simp only [hrn, Bool.false_eq_true, if_false, hal, hdef, if_true]
      rcases hres : env.restoreFails p with _ | _
      · simp [setLoc_other _ _ _ _ (by simp : (Loc.tmp p) ≠ (Loc.orig p))]
      · simp [setLoc_other _ _ _ _ (by simp : (Loc.orig p) ≠ (Loc.tmp p))]

theorem tryRemoveFile_exhaustedRaisesRetriable_witness :
    envNoDelete.restoreFails "f" = false ∧
    (tryRemoveFile envNoDelete fsF "f" 6 false).fs (.orig "f") = some 7 ∧
    (tryRemoveFile envNoDelete fsF "f" 6 false).fs (.tmp "f") = none :=
  ⟨rfl,
    ((tryRemoveFile_exhaustedRaisesRetriable envNoDelete fsF "f" 6 false 7 rfl rfl
      (fun _ => rfl) (Or.inl rfl)).2.1 rfl).1,
    ((tryRemoveFile_exhaustedRaisesRetriable envNoDelete fsF "f" 6 false 7 rfl rfl
      (fun _ => rfl) (Or.inl rfl)).2.1 rfl).2⟩

/-- C6 counterexample: a run in which the first copy attempt fails and the
destination exists.  The code performs zero direct delete attempts against
the destination and registers it for delete-on-reboot exactly once, whereas
the spec-modelled copier (`tryCopyFileSpec`, which removes the destination
via the locked-file remover with the default policy) performs 6 delete
attempts on the same input; the claimed "bounded delete retries before any
delete-on-reboot registration" do not happen in the code. -/
theorem tryCopyFile_noLockedRemover_counterexample :
    (tryCopyFile envFirstCopyFails fsSD "s" "d").result = .success ∧
    (tryCopyFile envFirstCopyFails fsSD "s" "d").deleteAttempts = 0 ∧
    (tryCopyFile envFirstCopyFails fsSD "s" "d").moveFileExCalls = 1 ∧
    (tryCopyFileSpec envFirstCopyFails fsSD "s" "d").deleteAttempts = 6 := by
  decide

/-- C6 amended: when the first copy attempt fails and the destination
exists, the existing destination is renamed aside to a temporary placeholder
and registered directly for delete-on-reboot (exactly one `moveFileEx` call,
zero direct delete attempts — not via the locked-file remover); then the
copy is retried exactly once (two copy attempts in total), the call raising
`OSError` if the retry also fails and returning success otherwise. -/
theorem tryCopyFile_fallbackRetriesOnce (env : Env) (fs : FS) (src dest : String) (c : Nat)
    (hsd : src ≠ dest)
    (hsrc : (fs (.orig src)).isSome = true)
    (h0 : env.copyFails 0 = true)
    (hdest : fs (.orig dest) = some c)
    (hrn : env.renameFails dest = false)
    (hmfe : env.moveFileExFails dest = false) :
    (tryCopyFile env fs src dest).copyAttempts = 2 ∧
    (tryCopyFile env fs src dest).deleteAttempts = 0 ∧
    (tryCopyFile env fs src dest).moveFileExCalls = 1 ∧
    (env.copyFails 1 = true → (tryCopyFile env fs src dest).result = .osError) ∧
    (env.copyFails 1 = false → (tryCopyFile env fs src dest).result = .success) := by
  rw [tryCopyFile]
  rw [if_neg (by rw [h0]; simp)]
  rw [if_neg (by rw [hdest]; simp)]
  simp only [hrn, Bool.false_eq_true, if_false, hmfe]
  have hsrc2 : (setLoc (setLoc (setLoc fs (.tmp dest) (some 0)) (.orig dest) none)
      (.tmp dest) (fs (.orig dest))) (.orig src) = fs (.orig src) := by
    rw [setLoc_other _ _ _ _ (by simp), setLoc_other _ _ _ _ (by simp [hsd]),
      setLoc_other _ _ _ _ (by simp)]
  rcases h1 : env.copyFails 1 with _ | _
  · rw [if_pos (by rw [hsrc2, hsrc]; rfl)]
    simp
  · rw [if_neg (by rw [hsrc2, hsrc]; simp)]
    simp

theorem tryCopyFile_fallbackRetriesOnce_witness :
    envFirstCopyFails.copyFails 0 = true ∧ envFirstCopyFails.copyFails 1 = false ∧
    (tryCopyFile envFirstCopyFails fsSD "s" "d").copyAttempts = 2 ∧
    (tryCopyFile envFirstCopyFails fsSD "s" "d").result = .success :=
  ⟨rfl, rfl,
    (tryCopyFile_fallbackRetriesOnce envFirstCopyFails fsSD "s" "d" 9 (by decide) rfl rfl rfl
      rfl rfl).1,
    (tryCopyFile_fallbackRetriesOnce envFirstCopyFails fsSD "s" "d" 9 (by decide) rfl rfl rfl
      rfl rfl).2.2.2.2 rfl⟩

/-- C10: the copy fallback is not atomic with respect to the destination:
once the fallback begins (the existing destination was renamed aside to the
placeholder and registered for delete-on-reboot), the original destination
file stays parked under the placeholder name in both outcomes of the
retried copy; in particular when the retried copy fails, the call raises
`OSError` with the destination path holding no file at all — neither the
old nor the new content — and when it succeeds the destination holds the
new content. -/
theorem tryCopyFile_fallbackNotAtomic (env : Env) (fs : FS) (src dest : String) (c : Nat)
    (hsd : src ≠ dest)
    (hsrc : (fs (.orig src)).isSome = true)
    (h0 : env.copyFails 0 = true)
    (hdest : fs (.orig dest) = some c)
    (hrn : env.renameFails dest = false)
    (hmfe : env.moveFileExFails dest = false) :
    (tryCopyFile env fs src dest).fs (.tmp dest) = some c ∧
    (env.copyFails 1 = true → (tryCopyFile env fs src dest).result = .osError ∧
      (tryCopyFile env fs src dest).fs (.orig dest) = none) ∧
    (env.copyFails 1 = false → (tryCopyFile env fs src dest).result = .success ∧
      (tryCopyFile env fs src dest).fs (.orig dest) = fs (.orig src)) := by
  rw [tryCopyFile]
  rw [if_neg (by rw [h0]; simp)]
  rw [if_neg (by rw [hdest]; simp)]
  simp only [hrn, Bool.false_eq_true, if_false, hmfe]
  have hsrc2 : (setLoc (setLoc (setLoc fs (.tmp dest) (some 0)) (.orig dest) none)
      (.tmp dest) (fs (.orig dest))) (.orig src) = fs (.orig src) := by
    rw [setLoc_other _ _ _ _ (by simp), setLoc_other _ _ _ _ (by simp [hsd]),
      setLoc_other _ _ _ _ (by simp)]
  rcases h1 : env.copyFails 1 with _ | _
  · rw [if_pos (by rw [hsrc2, hsrc]; rfl)]
    refine ⟨?_, fun hcontra => absurd hcontra (by simp), fun _ => ⟨rfl, ?_⟩⟩
    · simp [setLoc, hdest]
    · simp [setLoc, hsd]
  · rw [if_neg (by rw [hsrc2, hsrc]; simp)]
    refine ⟨?_, fun _ => ⟨rfl, ?_⟩, fun hcontra => absurd hcontra (by simp)⟩
    · simp [setLoc, hdest]
    · simp [setLoc]

theorem tryCopyFile_fallbackNotAtomic_witness :
    envAllCopiesFail.copyFails 1 = true ∧
    (tryCopyFile envAllCopiesFail fsSD "s" "d").result = .osError ∧
    (tryCopyFile envAllCopiesFail fsSD "s" "d").fs (.orig "d") = none ∧
    (tryCopyFile envAllCopiesFail fsSD "s" "d").fs (.tmp "d") = some 9 :=
  ⟨rfl,
    ((tryCopyFile_fallbackNotAtomic envAllCopiesFail fsSD "s" "d" 9 (by decide) rfl rfl rfl
      rfl rfl).2.1 rfl).1,
    ((tryCopyFile_fallbackNotAtomic envAllCopiesFail fsSD "s" "d" 9 (by decide) rfl rfl rfl
      rfl rfl).2.1 rfl).2,
    (tryCopyFile_fallbackNotAtomic envAllCopiesFail fsSD "s" "d" 9 (by decide) rfl rfl rfl
      rfl rfl).1⟩

theorem copyWalk_shape : ∀ (l : Forest) (p : List String), p ∈ copyWalk l →
    ∃ d p2, p = d :: p2 ∧ p2 ≠ [] ∧ d ∈ l.names := by
  intro l
  induction l with
  | nil => intro p hp; simp [copyWalk] at hp
  | cons d files sub rest ihsub ihrest =>
    intro p hp
    rw [copyWalk] at hp
    rcases List.mem_append.1 hp with h | h
    · rcases List.mem_map.1 h with ⟨p2, hp2, rfl⟩
      refine ⟨d, p2, rfl, ?_, by simp [Forest.names]⟩
      rcases List.mem_append.1 hp2 with h2 | h2
      · rcases List.mem_map.1 h2 with ⟨f, _, rfl⟩
        simp
      · rcases ihsub p2 h2 with ⟨d2, p3, rfl, _, _⟩
        simp
    · rcases ihrest p h with ⟨d2, p3, hpe, hne, hmem⟩
      exact ⟨d2, p3, hpe, hne, by simp [Forest.names, hmem]⟩

theorem keepDirs_names (keep : String → Bool) :
    ∀ (l : Forest) (d : String), d ∈ (l.keepDirs keep).names → keep d = true := by
  intro l
  induction l with
  | nil => intro d h; simp [Forest.keepDirs, Forest.names] at h
  | cons d2 files sub rest _ihsub ihrest =>
    intro d h
    rw [Forest.keepDirs] at h
    by_cases hk : keep d2 = true
    · rw [if_pos hk] at h
      rw [Forest.names] at h
      rcases List.mem_cons.1 h with h2 | h2
      · rw [h2]; exact hk
      · exact ihrest d h2
    · rw [if_neg hk] at h
      exact ihrest d h

theorem libWalk_shape (v : String) :
    ∀ (l : Forest) (pp q : List String), q ∈ libWalk v pp l →
      ∃ pp2 f, q = pp2 ++ [f] ∧ pp2 ≠ [v] := by
  intro l
  induction l with
  | nil => intro pp q hq; simp [libWalk] at hq
  | cons d files sub rest ihsub ihrest =>
    intro pp q hq
    rw [libWalk] at hq
    rcases List.mem_append.1 hq with h | h
    · rcases List.mem_append.1 h with h2 | h2
      · exact ihsub (pp ++ [d]) q h2
      · by_cases he : pp ++ [d] = [v]
        · rw [if_pos he] at h2
          simp at h2
        · rw [if_neg he] at h2
          rcases List.mem_map.1 h2 with ⟨f, _, rfl⟩
          exact ⟨pp ++ [d], f, rfl, he⟩
    · exact ihrest pp q h

/-- C7 counterexample: the protected-subtree exclusion does not apply at
nested occurrences.  `copyProgramFiles` copies
`sub/userConfig/secret.ini`, a file under a `userConfig` subtree one level
below the root, and `removeOldLibFiles` with current version `1.0` removes
`1.0/sub/x.dll`, a file in a subdirectory of the current version's own lib
directory. -/
theorem protectedSubtrees_counterexample :
    ["sub", "userConfig", "secret.ini"] ∈ copyProgramFiles treeNestedUserConfig ∧
    ["1.0", "sub", "x.dll"] ∈ removeOldLibFiles "1.0" treeLib := by
  decide

/-- C7 amended: the exclusions are top-level only.  The tree replicator
never copies a file lying under a `userconfig`/`systemconfig` subdirectory
of the source root (every copied path of depth at least two starts with an
unprotected name), and the pruner never removes a file lying directly in
the currently installed version's library directory; nested occurrences of
the protected names and subdirectories of the current version's library
directory are not protected. -/
theorem protectedSubtrees_topLevelOnly :
    (∀ (t : DirTree) (s q2 : String) (rest : List String),
      (s :: q2 :: rest) ∈ copyProgramFiles t → isProtectedName s = false) ∧
    ∀ (v : String) (t : DirTree) (f : String), [v, f] ∉ removeOldLibFiles v t := by
  constructor
  · intro t s q2 rest h
    rw [copyProgramFiles] at h
    rcases List.mem_append.1 h with h2 | h2
    · rcases List.mem_map.1 h2 with ⟨f, _, hf⟩
      simp at hf
    · rcases copyWalk_shape _ _ h2 with ⟨d, p2, hpe, _, hdm⟩
      have hsd : s = d := by
        injection hpe with h1 _
      have hk := keepDirs_names _ t.subs d hdm
      rw [hsd]
      rcases hip : isProtectedName d with _ | _
      · rfl
      · rw [hip] at hk
        simp at hk
  · intro v t f hmem
    rw [removeOldLibFiles] at hmem
    rcases List.mem_append.1 hmem with h | h
    · rcases libWalk_shape v t.subs [] _ h with ⟨pp2, f2, heq, hne⟩
      rcases pp2 with _ | ⟨x, _ | ⟨y, tl⟩⟩
      · simp at heq
      · apply hne
        rw [List.singleton_append] at heq
        injection heq with h1 h2
        rw [h1]
      · rw [List.cons_append, List.cons_append] at heq
        injection heq with h1 h2
        injection h2 with h3 h4
        exact absurd h4.symm (by simp)
    · rcases List.mem_map.1 h with ⟨f2, _, hf⟩
      simp at hf

theorem protectedSubtrees_topLevelOnly_witness :
    (["sub", "userConfig", "secret.ini"] ∈ copyProgramFiles treeNestedUserConfig) ∧
    isProtectedName "sub" = false ∧
    ["1.0", "direct.dll"] ∉ removeOldLibFiles "1.0" treeLib :=
  ⟨by decide,
    protectedSubtrees_topLevelOnly.1 treeNestedUserConfig "sub" "userConfig" ["secret.ini"]
      (by decide),
    protectedSubtrees_topLevelOnly.2 "1.0" treeLib "direct.dll"⟩

/-- C9: the tree replicator never copies a top-level file whose lowercased
name is `nvda.exe`, for any source tree (so the destination's `nvda.exe` is
untouched by the copy walk), and the `install` step that runs afterwards
produces the installed `nvda.exe` by copying `nvda_UIAccess.exe` over it
when that exists, otherwise `nvda_noUIAccess.exe`, and raises a
`RuntimeError` when neither exists. -/
theorem copyProgramFiles_neverCopiesNvdaExe :
    (∀ (t : DirTree) (f : String), lowerName f = "nvda.exe".data →
      [f] ∉ copyProgramFiles t) ∧
    ∀ (env : Env) (fs : FS),
      ((fs (.orig "nvda_UIAccess.exe")).isSome = true →
        installNvdaExeStep env fs =
          .copied "nvda_UIAccess.exe" (tryCopyFile env fs "nvda_UIAccess.exe" "nvda.exe")) ∧
      ((fs (.orig "nvda_UIAccess.exe")).isSome = false →
        (fs (.orig "nvda_noUIAccess.exe")).isSome = true →
        installNvdaExeStep env fs =
          .copied "nvda_noUIAccess.exe" (tryCopyFile env fs "nvda_noUIAccess.exe" "nvda.exe")) ∧
      ((fs (.orig "nvda_UIAccess.exe")).isSome = false →
        (fs (.orig "nvda_noUIAccess.exe")).isSome = false →
        installNvdaExeStep env fs = .runtimeError) := by
  constructor
  · intro t f hlf hmem
    rw [copyProgramFiles] at hmem
    rcases List.mem_append.1 hmem with h | h
    · rcases List.mem_map.1 h with ⟨f2, hf2, hfe⟩
      have hff : f2 = f := by simpa using hfe
      rw [hff] at hf2
      have hfl := List.of_mem_filter hf2
      rw [hlf] at hfl
      simp at hfl
    · rcases copyWalk_shape _ _ h with ⟨d, p2, hpe, hne, _⟩
      apply hne
      injection hpe with h1 h2
      exact h2.symm
  · intro env fs
    refine ⟨fun h1 => ?_, fun h1 h2 => ?_, fun h1 h2 => ?_⟩
    · rw [installNvdaExeStep, if_pos h1]
    · rw [installNvdaExeStep, if_neg (by rw [h1]; simp), if_pos h2]
    · rw [installNvdaExeStep, if_neg (by rw [h1]; simp), if_neg (by rw [h2]; simp)]

theorem copyProgramFiles_neverCopiesNvdaExe_witness :
    lowerName "Nvda.exe" = "nvda.exe".data ∧
    ["Nvda.exe"] ∉ copyProgramFiles treeNestedUserConfig ∧
    installNvdaExeStep envOK fsUIA =
      .copied "nvda_UIAccess.exe" (tryCopyFile envOK fsUIA "nvda_UIAccess.exe" "nvda.exe") :=
  ⟨by decide,
    copyProgramFiles_neverCopiesNvdaExe.1 treeNestedUserConfig "Nvda.exe" (by decide),
    (copyProgramFiles_neverCopiesNvdaExe.2 envOK fsUIA).1 rfl⟩

end Installer
